import Mathlib

/-!
Shallow embedding of the x68k-hid bridge (src/main.c): a USB HID keyboard/mouse
to Sharp X68000 serial protocol translator.  Pure Lean translations of the
state, the host-command parser (uartISR), the keyboard diff engine
(compareKeybReports / processKeybReport), the repeat timer, and the mouse
accumulator/framer (processMouseReport / sendMouse), followed by theorems
settling the spec claims C1-C10.

Machine integers are modelled as Nat/Int with explicit wrapping where the C
types wrap: `wrap16` for the int16_t mouse accumulators, `wrap32` for the
int32_t repeat countdown.  Byte sinks are modelled as `List Nat` outputs.
-/

namespace X68kHid

/-- Two's-complement wrap of an integer into the int16_t range. -/
def wrap16 (n : Int) : Int := (n + 32768) % 65536 - 32768

/-- Two's-complement wrap of an integer into the int32_t range. -/
def wrap32 (n : Int) : Int := (n + 2147483648) % 4294967296 - 2147483648

-- Host command codes, from 'X68000 Technical Guide', Chapter 5 (main.c lines 169-178).
def KEYB_MSCTRL              : Nat := 0x40
def KEYB_MSCTRL_MASK         : Nat := 0xf8
def KEYB_LED_BRIGHTNESS      : Nat := 0x54
def KEYB_LED_BRIGHTNESS_MASK : Nat := 0xfc
def KEYB_KEY_INHIBIT         : Nat := 0x58
def KEYB_KEY_INHIBIT_MASK    : Nat := 0xf8
def KEYB_REPEAT_DELAY        : Nat := 0x60
def KEYB_REPEAT_INTERVAL     : Nat := 0x70
def KEYB_REPEAT_MASK         : Nat := 0xf0
def KEYB_LED_CTRL_MASK       : Nat := 0x80

def HID_KEY_NONE : Nat := 0x00
def HID_KEY_A    : Nat := 0x04

/-- The boot-protocol keyboard report: modifier bitmap plus six keycode slots
(hid_keyboard_report_t; the reserved byte is unused by the program). -/
structure KeybReport where
  modifier : Nat
  keycode : List Nat
deriving DecidableEq, Repr

/-- The boot-protocol mouse report: button bitmap plus signed 8-bit deltas. -/
structure MouseReport where
  buttons : Nat
  x : Int
  y : Int
deriving DecidableEq, Repr

def zeroReport : KeybReport := ⟨0, [0, 0, 0, 0, 0, 0]⟩

/-- The module-level mutable state of main.c (lines 135-151). -/
structure St where
  txInhibit : Bool
  keyInhibit : Bool
  msctrlAsserted : Bool
  currentLedLevel : Nat
  currentLedState : Nat
  keyRepeatDelay : Nat
  keyRepeatInterval : Nat
  dx : Int
  dy : Int
  lmbPressed : Bool
  rmbPressed : Bool
  prevReport : KeybReport
  keyRepeatKeyCode : Nat
  keyRepeatCountdown : Int
deriving DecidableEq, Repr

def initialState : St :=
  { txInhibit := false
    keyInhibit := false
    msctrlAsserted := false
    currentLedLevel := 0
    currentLedState := 0
    keyRepeatDelay := 500
    keyRepeatInterval := 110
    dx := 0
    dy := 0
    lmbPressed := false
    rmbPressed := false
    prevReport := zeroReport
    keyRepeatKeyCode := 0
    keyRepeatCountdown := 0 }

/-- modifierScans (main.c lines 276-286). -/
def modifierScans : List Nat :=
  [0x71, 0x70, 0x56, 0x55, 0x59, 0x70, 0x57, 0x58]

/-- keycodeScans (main.c lines 288-387): HID keycode - HID_KEY_A indexes this table. -/
def keycodeScans : List Nat :=
  [0x1e, 0x2e, 0x2c, 0x20, 0x13, 0x21, 0x22, 0x23, 0x18, 0x24,
   0x25, 0x26, 0x30, 0x2f, 0x19, 0x1a, 0x11, 0x14, 0x1f, 0x15,
   0x17, 0x2d, 0x12, 0x2b, 0x16, 0x2a, 0x02, 0x03, 0x04, 0x05,
   0x06, 0x07, 0x08, 0x09, 0x0a, 0x0b, 0x1d, 0x01, 0x0f, 0x10,
   0x35, 0x0c, 0x0d, 0x1b, 0x1c, 0x0e, 0x29, 0x27, 0x28, 0x60,
   0x31, 0x32, 0x33, 0x5d, 0x63, 0x64, 0x65, 0x66, 0x67, 0x68,
   0x69, 0x6a, 0x6b, 0x6c, 0x5a, 0x5b, 0x62, 0x54, 0x61, 0x5e,
   0x36, 0x38, 0x37, 0x3a, 0x39, 0x3d, 0x3b, 0x3e, 0x3c, 0x3f,
   0x40, 0x41, 0x42, 0x46, 0x4e, 0x4b, 0x4c, 0x4d, 0x47, 0x48,
   0x49, 0x43, 0x44, 0x45, 0x4f, 0x51, 0x0e]

/-- sendKeycode (main.c lines 389-399): translate a HID keycode and return the
byte written to the keyboard UART ([] when the keycode is untranslatable).
Note: neither txInhibit nor keyInhibit is consulted here. -/
def sendKeycode (keyCode : Nat) (make : Bool) : List Nat :=
  if keyCode < HID_KEY_A ∨ keycodeScans.length ≤ keyCode - HID_KEY_A then []
  else [keycodeScans.getD (keyCode - HID_KEY_A) 0 ||| (if make then 0x00 else 0x80)]

/-- isPresentInReport (main.c lines 401-409), over the six keycode slots. -/
def isPresentInReport (keycodes : List Nat) (keyCode : Nat) : Bool :=
  keycodes.any (fun c => c == keyCode)

/-- Loop body of compareKeybReports (main.c lines 411-441): walk the slots of
reportA, and for each non-sentinel keycode absent from reportB emit a
make/break and update the repeat state. -/
def compareKeybList (other : List Nat) (make : Bool) : List Nat → St → St × List Nat
  | [], s => (s, [])
  | keyCode :: rest, s =>
    if keyCode = HID_KEY_NONE ∨ keyCode ≤ 0x03 then
      compareKeybList other make rest s
    else if isPresentInReport other keyCode then
      compareKeybList other make rest s
    else
      let out := sendKeycode keyCode make
      let s' :=
        if make then
          { s with keyRepeatKeyCode := keyCode,
                   keyRepeatCountdown := (s.keyRepeatDelay : Int) }
        else if s.keyRepeatKeyCode = keyCode then
          { s with keyRepeatKeyCode := 0, keyRepeatCountdown := 0 }
        else s
      let r := compareKeybList other make rest s'
      (r.1, out ++ r.2)

def compareKeybReports (s : St) (reportA reportB : KeybReport) (make : Bool) : St × List Nat :=
  compareKeybList reportB.keycode make reportA.keycode s

/-- One modifier bit of the modifier pass of processKeybReport (main.c lines 471-486). -/
def modBit (prevMod curMod : Nat) (i : Nat) : List Nat :=
  if (prevMod ^^^ curMod) &&& (1 <<< i) ≠ 0 then
    [modifierScans.getD i 0 ||| (if curMod &&& (1 <<< i) ≠ 0 then 0x00 else 0x80)]
  else []

/-- The modifier pass of processKeybReport: bytes written for changed modifier bits. -/
def modifierBytes (prevMod curMod : Nat) : List Nat :=
  if prevMod ^^^ curMod = 0 then []
  else
    modBit prevMod curMod 0 ++ modBit prevMod curMod 1 ++ modBit prevMod curMod 2 ++
    modBit prevMod curMod 3 ++ modBit prevMod curMod 4 ++ modBit prevMod curMod 5 ++
    modBit prevMod curMod 6 ++ modBit prevMod curMod 7

/-- processKeybReport (main.c lines 468-495): modifier pass, break pass, make
pass, then store the report as the new previous.  Returns the new state and
the bytes written to the keyboard UART, in emission order. -/
def processKeybReport (s : St) (report : KeybReport) : St × List Nat :=
  let mb := modifierBytes s.prevReport.modifier report.modifier
  let rB := compareKeybReports s s.prevReport report false
  let rM := compareKeybReports rB.1 report s.prevReport true
  ({ rM.1 with prevReport := report }, mb ++ rB.2 ++ rM.2)

/-- One byte of the host command parser, the loop body of uartISR
(main.c lines 180-216). -/
def hostByte (s : St) (ch : Nat) : St :=
  if ch &&& KEYB_MSCTRL_MASK = KEYB_MSCTRL then
    { s with msctrlAsserted := (ch &&& 0x01) = 0 }
  else if ch &&& KEYB_LED_BRIGHTNESS_MASK = KEYB_LED_BRIGHTNESS then
    { s with currentLedLevel := ch &&& 0x03 }
  else if ch &&& KEYB_KEY_INHIBIT_MASK = KEYB_KEY_INHIBIT then
    -- C source: `keyInhibit = ch & 0x01 == 0;`.  By C precedence this is
    -- ch & (0x01 == 0), i.e. ch & 0, so the stored value is always false.
    { s with keyInhibit := (ch &&& (if (0x01 : Nat) = 0 then 1 else 0)) ≠ 0 }
  else if ch &&& KEYB_REPEAT_MASK = KEYB_REPEAT_DELAY then
    { s with keyRepeatDelay := 200 + (ch &&& 0x0f) * 100 }
  else if ch &&& KEYB_REPEAT_MASK = KEYB_REPEAT_INTERVAL then
    { s with keyRepeatInterval := 30 + (ch &&& 0x0f) * (ch &&& 0x0f) * 5 }
  else if ch &&& KEYB_LED_CTRL_MASK = KEYB_LED_CTRL_MASK then
    { s with currentLedState := ch &&& 0x7f }
  else s

/-- uartISR (main.c lines 180-216): drain the keyboard UART receive FIFO,
parsing each byte as a host command. -/
def uartISR (s : St) (input : List Nat) : St :=
  input.foldl hostByte s

/-- Packing of the MouseData status bitfield (main.c lines 218-244):
bit0 Lbtn, bit1 Rbtn, bits 2-3 unused (zero), bit4 Xover, bit5 Xundr,
bit6 Yover, bit7 Yundr, LSB-first. -/
def mouseStatus (l r xo xu yo yu : Bool) : Nat :=
  (if l then 1 else 0) + (if r then 2 else 0) +
  (if xo then 16 else 0) + (if xu then 32 else 0) +
  (if yo then 64 else 0) + (if yu then 128 else 0)

/-- C integer comparison x == y as a 0/1 int value. -/
def cEq (a b : Nat) : Nat := if a = b then 1 else 0

/-- sendMouse (main.c lines 246-274).  Returns the new state, the bytes
written to the mouse UART, and whether the activity LED was pulsed.
`dx & 0xff` on the int16_t accumulator is its low 8 bits, i.e. dx % 256.
The zero-packet early-out is C's chained `data[0] == data[1] == data[2] == 0`,
which parses as ((data0 == data1) == data2) == 0. -/
def sendMouse (s : St) : St × List Nat × Bool :=
  if s.txInhibit then (s, [], false)
  else
    let b0 := mouseStatus s.lmbPressed s.rmbPressed
      (decide (s.dx > 127)) (decide (s.dx < -128))
      (decide (s.dy > 127)) (decide (s.dy < -128))
    let b1 := (s.dx % 256).toNat
    let b2 := (s.dy % 256).toNat
    let s' := { s with dx := 0, dy := 0 }
    if cEq (cEq (cEq b0 b1) b2) 0 ≠ 0 then (s', [b0, b1, b2], false)
    else (s', [b0, b1, b2], true)

/-- The key-repeat portion of processKeybAndMouse (main.c lines 455-465).
The countdown decrement `keyRepeatCountdown -= deltaTime` mixes int32_t and
uint32_t, so it wraps at 32 bits. -/
def handleKeyRepeats (s : St) (deltaTime : Nat) : St × List Nat :=
  if s.keyRepeatCountdown ≠ 0 then
    let cd := wrap32 (s.keyRepeatCountdown - (deltaTime : Int))
    if cd ≤ 0 then
      ({ s with keyRepeatCountdown := (s.keyRepeatInterval : Int) },
       sendKeycode s.keyRepeatKeyCode true)
    else
      ({ s with keyRepeatCountdown := cd }, [])
  else (s, [])

/-- processKeybAndMouse (main.c lines 443-466): poll the UART (parsing host
commands), send a mouse packet on an MSCTRL false-to-true edge, then handle
key repeats.  Returns (state, keyboard bytes, mouse bytes, LED pulse). -/
def processKeybAndMouse (s : St) (input : List Nat) (deltaTime : Nat) :
    St × List Nat × List Nat × Bool :=
  let wasAsserted := s.msctrlAsserted
  let s1 := uartISR s input
  let isAsserted := s1.msctrlAsserted
  let rMouse := if ¬wasAsserted ∧ isAsserted then sendMouse s1 else (s1, [], false)
  let rRep := handleKeyRepeats rMouse.1 deltaTime
  (rRep.1, rRep.2, rMouse.2.1, rMouse.2.2)

def MSCTRL_GPIO : Nat := 3
def READY_GPIO : Nat := 5
def GPIO_IRQ_EDGE_FALL : Nat := 4
def GPIO_IRQ_EDGE_RISE : Nat := 8

/-- gpioISR (main.c lines 155-165).  The second branch guard is C's
`else if (gpio = READY_GPIO)` - an assignment, so the guard value is
READY_GPIO (5), which is nonzero and therefore always taken. -/
def gpioISR (s : St) (gpio : Nat) (events : Nat) : St × List Nat × Bool :=
  if gpio = MSCTRL_GPIO ∧ events &&& GPIO_IRQ_EDGE_FALL ≠ 0 then
    sendMouse s
  else if READY_GPIO ≠ 0 then
    ({ s with txInhibit := events &&& GPIO_IRQ_EDGE_FALL ≠ 0 }, [], false)
  else (s, [], false)

/-- processMouseReport (main.c lines 497-503).  MOUSE_BUTTON_LEFT = 1,
MOUSE_BUTTON_RIGHT = 2.  The int16_t accumulators wrap on overflow. -/
def processMouseReport (s : St) (report : MouseReport) : St :=
  { s with lmbPressed := report.buttons &&& 1 ≠ 0
           rmbPressed := report.buttons &&& 2 ≠ 0
           dx := wrap16 (s.dx + report.x)
           dy := wrap16 (s.dy + report.y) }

/-- Process a sequence of keyboard HID reports in order, concatenating the
bytes written to the keyboard UART. -/
def runReports : St → List KeybReport → St × List Nat
  | s, [] => (s, [])
  | s, r :: rs =>
    let r1 := processKeybReport s r
    let r2 := runReports r1.1 rs
    (r2.1, r1.2 ++ r2.2)

/-- Number of elements of a list satisfying a Boolean predicate. -/
def countIf (p : Nat → Bool) : List Nat → Nat
  | [] => 0
  | x :: xs => (if p x then 1 else 0) + countIf p xs

/-- Number of occurrences of a byte value in a list. -/
def countB (b : Nat) (l : List Nat) : Nat := countIf (fun c => c == b) l

/-- The bytes the diff engine emits for one slot value of the walked report:
nothing for sentinels (keycode 0x00-0x03) or keycodes present in the other
report, otherwise whatever sendKeycode writes. -/
def emitted (other : List Nat) (make : Bool) (k : Nat) : List Nat :=
  if k ≤ 3 then [] else if isPresentInReport other k then [] else sendKeycode k make

/-- Pointwise emission over a slot list (the bytes of one compare pass). -/
def emittedList (other : List Nat) (make : Bool) : List Nat → List Nat
  | [] => []
  | k :: rest => emitted other make k ++ emittedList other make rest

/-- Number of slots of a keycode list holding a non-sentinel keycode whose
make scancode byte is b. -/
def pressedCount (b : Nat) (ks : List Nat) : Nat :=
  countIf (fun k => decide (3 < k) && decide (sendKeycode k true = [b])) ks

/-- A keycode list is duplicate-free when no non-sentinel keycode occupies two
slots. -/
def dupFree (ks : List Nat) : Prop := ∀ k ∈ ks, 3 < k → countB k ks ≤ 1

instance (ks : List Nat) : Decidable (dupFree ks) :=
  inferInstanceAs (Decidable (∀ k ∈ ks, 3 < k → countB k ks ≤ 1))

/-- Predicate picking the slots of a walked report that make the diff engine
emit the make byte b: non-sentinel, absent from the other report, and
translated to b. -/
def makePred (other : List Nat) (b : Nat) (k : Nat) : Bool :=
  decide (3 < k) && !isPresentInReport other k && decide (sendKeycode k true = [b])

/-- The 8-bit two's-complement encoding of an integer in [-128, 127], as the
spec describes byte 1 and byte 2 of the mouse frame. -/
def twosComp8 (x : Int) : Nat := (if 0 ≤ x then x else x + 256).toNat

/-- Modelled from the spec: saturating addition at the signed 16-bit bounds,
as the spec's words "accumulate (saturating) the report's signed deltas"
describe; used to compare against the code's wrapping accumulator. -/
def specSatAdd16 (a b : Int) : Int := max (-32768) (min 32767 (a + b))

/-- RepeatState shape invariant: disarmed (0, 0) or armed with a positive
countdown. -/
def RepeatInv (s : St) : Prop :=
  (s.keyRepeatKeyCode = 0 ∧ s.keyRepeatCountdown = 0) ∨
  (s.keyRepeatKeyCode ≠ 0 ∧ 0 < s.keyRepeatCountdown)

/-- Full state invariant: the RepeatState shape plus positivity of the two
repeat configuration values (which every command keeps at ≥ 200 and ≥ 30). -/
def Inv (s : St) : Prop :=
  RepeatInv s ∧ 0 < s.keyRepeatDelay ∧ 0 < s.keyRepeatInterval

/-! ## Helper lemmas -/

lemma wrap16_eq_self (x : Int) (h1 : -32768 ≤ x) (h2 : x < 32768) : wrap16 x = x := by
  unfold wrap16; omega

lemma wrap16_bounds (x : Int) : -32768 ≤ wrap16 x ∧ wrap16 x < 32768 := by
  unfold wrap16; omega

lemma wrap16_add_left (a b : Int) : wrap16 (wrap16 a + b) = wrap16 (a + b) := by
  unfold wrap16; omega

lemma wrap32_eq_self (x : Int) (h1 : -2147483648 ≤ x) (h2 : x < 2147483648) :
    wrap32 x = x := by
  unfold wrap32; omega

lemma isPresent_iff (l : List Nat) (k : Nat) : isPresentInReport l k = true ↔ k ∈ l := by
  simp [isPresentInReport, List.any_eq_true]

lemma countIf_append (p : Nat → Bool) (l1 l2 : List Nat) :
    countIf p (l1 ++ l2) = countIf p l1 + countIf p l2 := by
  induction l1 with
  | nil => simp [countIf]
  | cons x xs ih => simp [countIf, ih]; omega

lemma countB_append (b : Nat) (l1 l2 : List Nat) :
    countB b (l1 ++ l2) = countB b l1 + countB b l2 :=
  countIf_append _ l1 l2

lemma countIf_congr (p q : Nat → Bool) (l : List Nat) (h : ∀ c ∈ l, p c = q c) :
    countIf p l = countIf q l := by
  induction l with
  | nil => rfl
  | cons x xs ih =>
    simp only [countIf, h x (List.mem_cons_self x xs)]
    rw [ih (fun c hc => h c (List.mem_cons_of_mem x hc))]

lemma countIf_false (l : List Nat) : countIf (fun _ => false) l = 0 := by
  induction l with
  | nil => rfl
  | cons x xs ih => simp [countIf, ih]

lemma countIf_split (p q : Nat → Bool) (l : List Nat) :
    countIf (fun k => p k && q k) l + countIf (fun k => p k && !q k) l = countIf p l := by
  induction l with
  | nil => rfl
  | cons x xs ih =>
    simp only [countIf]
    by_cases hp : p x <;> by_cases hq : q x <;> simp [hp, hq] <;> omega

lemma countB_cons_le (b x : Nat) (xs : List Nat) : countB b xs ≤ countB b (x :: xs) := by
  simp only [countB, countIf]; omega

lemma countB_eq_zero_of_not_mem (b : Nat) (l : List Nat) (h : b ∉ l) : countB b l = 0 := by
  induction l with
  | nil => rfl
  | cons x xs ih =>
    simp only [countB, countIf]
    have hx : ¬x = b := fun he => h (he ▸ List.mem_cons_self x xs)
    have hxs : b ∉ xs := fun hm => h (List.mem_cons_of_mem x hm)
    simp only [countB] at ih
    simp [hx, ih hxs]

lemma countB_pos_of_mem (b : Nat) (l : List Nat) (h : b ∈ l) : 1 ≤ countB b l := by
  induction l with
  | nil => cases h
  | cons x xs ih =>
    simp only [countB, countIf]
    rcases List.mem_cons.mp h with he | hm
    · simp [he.symm]
    · have := ih hm; simp only [countB] at this; omega

/-! ## C5: the key-inhibit command -/

/-- C5: the claim says the parser sets keyInhibit to ((b AND 1) == 0); on the
command byte 0x58 that value is true, but the code (because `ch & 0x01 == 0`
parses as `ch & (0x01 == 0)`, i.e. `ch & 0`) stores false.  This theorem
evaluates the embedded parser at the failing input 0x58: keyInhibit comes out
false even though (0x58 AND 1) = 0 demands true, and false is stored even from
a state where keyInhibit was true. -/
theorem c5_keyInhibit_bug_eval :
    (hostByte initialState 0x58).keyInhibit = false ∧
    (hostByte { initialState with keyInhibit := true } 0x58).keyInhibit = false ∧
    0x58 &&& 0x01 = 0 := by
  refine ⟨?_, ?_, ?_⟩ <;> decide

/-! ## C6: mouse emission gating and reset -/

/-- C6: if a mouse-packet emission is attempted while txInhibit is true,
nothing is emitted and the whole state (dx, dy, lmb, rmb included) is
unchanged; an uninhibited emission resets dx and dy to zero and leaves every
other field (lmb and rmb included) unchanged. -/
theorem c6_sendMouse_gating (s : St) :
    (s.txInhibit = true → sendMouse s = (s, [], false)) ∧
    (s.txInhibit = false → (sendMouse s).1 = { s with dx := 0, dy := 0 }) := by
  constructor
  · intro h; simp [sendMouse, h]
  · intro h
    simp only [sendMouse, h, Bool.false_eq_true, if_false]
    split <;> rfl

/-- Witness for C6 at concrete states. -/
theorem c6_sendMouse_gating_witness :
    sendMouse { initialState with txInhibit := true } =
      ({ initialState with txInhibit := true }, [], false) ∧
    (sendMouse initialState).1 = { initialState with dx := 0, dy := 0 } :=
  ⟨(c6_sendMouse_gating { initialState with txInhibit := true }).1 rfl,
   (c6_sendMouse_gating initialState).2 rfl⟩

/-! ## C9: activity LED fires only on a non-zero frame -/

/-- C9: whenever sendMouse pulses the activity LED, the emitted 3-byte frame
is not all-zero; equivalently, emitting the all-zero frame never fires the
pulse. -/
theorem c9_led_only_when_nonzero (s : St) :
    (sendMouse s).2.2 = true → (sendMouse s).2.1 ≠ [0, 0, 0] := by
  by_cases ht : s.txInhibit
  · simp [sendMouse, ht]
  · simp only [sendMouse, ht, Bool.false_eq_true, if_false]
    split
    · simp
    · rename_i hcond
      intro _ heq
      simp only [List.cons.injEq, and_true] at heq
      obtain ⟨h0, h1, h2⟩ := heq
      rw [h0, h1, h2] at hcond
      simp [cEq] at hcond

/-- Witness for C9: a frame with the left button held is non-zero and does
fire the pulse. -/
theorem c9_led_witness :
    (sendMouse { initialState with lmbPressed := true }).2.1 ≠ [0, 0, 0] :=
  c9_led_only_when_nonzero { initialState with lmbPressed := true } (by decide)

/-! ## C4: mouse frame layout -/

lemma mouseStatus_testBit (l r xo xu yo yu : Bool) :
    (mouseStatus l r xo xu yo yu).testBit 0 = l ∧
    (mouseStatus l r xo xu yo yu).testBit 1 = r ∧
    (mouseStatus l r xo xu yo yu).testBit 2 = false ∧
    (mouseStatus l r xo xu yo yu).testBit 3 = false ∧
    (mouseStatus l r xo xu yo yu).testBit 4 = xo ∧
    (mouseStatus l r xo xu yo yu).testBit 5 = xu ∧
    (mouseStatus l r xo xu yo yu).testBit 6 = yo ∧
    (mouseStatus l r xo xu yo yu).testBit 7 = yu := by
  cases l <;> cases r <;> cases xo <;> cases xu <;> cases yo <;> cases yu <;> decide

lemma sendMouse_bytes (s : St) (h : s.txInhibit = false) :
    (sendMouse s).2.1 =
      [mouseStatus s.lmbPressed s.rmbPressed
         (decide (s.dx > 127)) (decide (s.dx < -128))
         (decide (s.dy > 127)) (decide (s.dy < -128)),
       (s.dx % 256).toNat, (s.dy % 256).toNat] := by
  simp only [sendMouse, h, Bool.false_eq_true, if_false]
  split <;> rfl

lemma emod256_toNat_eq_twosComp8 (x : Int) (h1 : -128 ≤ x) (h2 : x ≤ 127) :
    (x % 256).toNat = twosComp8 x := by
  unfold twosComp8; split <;> omega

/-- C4: every emitted mouse frame is three bytes: byte 0 has bit0 = left
button, bit1 = right button, bits 2-3 zero, bit4 = (dx > 127),
bit5 = (dx < -128), bit6 = (dy > 127), bit7 = (dy < -128); byte 1 is the low
8 bits of dx and byte 2 the low 8 bits of dy.  When dx lies in [-128, 127],
byte 1 is its 8-bit two's-complement encoding and the X overflow/underflow
flags are clear. -/
theorem c4_mouse_frame_layout (s : St) (h : s.txInhibit = false) :
    ((sendMouse s).2.1.length = 3 ∧
     ((sendMouse s).2.1.getD 0 0).testBit 0 = s.lmbPressed ∧
     ((sendMouse s).2.1.getD 0 0).testBit 1 = s.rmbPressed ∧
     ((sendMouse s).2.1.getD 0 0).testBit 2 = false ∧
     ((sendMouse s).2.1.getD 0 0).testBit 3 = false) ∧
    (((sendMouse s).2.1.getD 0 0).testBit 4 = decide (s.dx > 127) ∧
     ((sendMouse s).2.1.getD 0 0).testBit 5 = decide (s.dx < -128) ∧
     ((sendMouse s).2.1.getD 0 0).testBit 6 = decide (s.dy > 127) ∧
     ((sendMouse s).2.1.getD 0 0).testBit 7 = decide (s.dy < -128)) ∧
    ((sendMouse s).2.1.getD 1 0 = (s.dx % 256).toNat ∧
     (sendMouse s).2.1.getD 2 0 = (s.dy % 256).toNat) ∧
    (-128 ≤ s.dx → s.dx ≤ 127 →
      ((sendMouse s).2.1.getD 0 0).testBit 4 = false ∧
      ((sendMouse s).2.1.getD 0 0).testBit 5 = false ∧
      (sendMouse s).2.1.getD 1 0 = twosComp8 s.dx) := by
  rw [sendMouse_bytes s h]
  obtain ⟨hb0, hb1, hb2, hb3, hb4, hb5, hb6, hb7⟩ :=
    mouseStatus_testBit s.lmbPressed s.rmbPressed
      (decide (s.dx > 127)) (decide (s.dx < -128))
      (decide (s.dy > 127)) (decide (s.dy < -128))
  refine ⟨⟨rfl, hb0, hb1, hb2, hb3⟩, ⟨hb4, hb5, hb6, hb7⟩, ⟨rfl, rfl⟩, ?_⟩
  intro h1 h2
  refine ⟨?_, ?_, emod256_toNat_eq_twosComp8 s.dx h1 h2⟩
  · rw [List.getD_cons_zero, hb4]; simp; omega
  · rw [List.getD_cons_zero, hb5]; simp; omega

/-- Witness for C4 at the initial state (dx = dy = 0, buttons released). -/
theorem c4_mouse_frame_layout_witness :
    ((sendMouse initialState).2.1.getD 0 0).testBit 0 = initialState.lmbPressed ∧
    (sendMouse initialState).2.1.getD 1 0 = twosComp8 initialState.dx := by
  obtain ⟨⟨-, hbit, -, -, -⟩, -, -, himp⟩ :=
    c4_mouse_frame_layout initialState rfl
  exact ⟨hbit, (himp (by decide) (by decide)).2.2⟩

/-! ## C7: mouse accumulation -/

lemma foldl_mouse_dx (rs : List MouseReport) :
    ∀ s : St, -32768 ≤ s.dx → s.dx < 32768 →
      (rs.foldl processMouseReport s).dx = wrap16 (s.dx + (rs.map MouseReport.x).sum) := by
  induction rs with
  | nil =>
    intro s h1 h2
    simp [wrap16_eq_self s.dx h1 h2]
  | cons r rest ih =>
    intro s h1 h2
    have hb := wrap16_bounds (s.dx + r.x)
    have step : (processMouseReport s r).dx = wrap16 (s.dx + r.x) := rfl
    simp only [List.foldl_cons, List.map_cons, List.sum_cons]
    rw [ih (processMouseReport s r) (step ▸ hb.1) (step ▸ hb.2), step,
        wrap16_add_left, add_assoc]

lemma foldl_mouse_dy (rs : List MouseReport) :
    ∀ s : St, -32768 ≤ s.dy → s.dy < 32768 →
      (rs.foldl processMouseReport s).dy = wrap16 (s.dy + (rs.map MouseReport.y).sum) := by
  induction rs with
  | nil =>
    intro s h1 h2
    simp [wrap16_eq_self s.dy h1 h2]
  | cons r rest ih =>
    intro s h1 h2
    have hb := wrap16_bounds (s.dy + r.y)
    have step : (processMouseReport s r).dy = wrap16 (s.dy + r.y) := rfl
    simp only [List.foldl_cons, List.map_cons, List.sum_cons]
    rw [ih (processMouseReport s r) (step ▸ hb.1) (step ▸ hb.2), step,
        wrap16_add_left, add_assoc]

lemma foldl_mouse_buttons (rs : List MouseReport) :
    ∀ (s : St) (d : MouseReport), rs ≠ [] →
      (rs.foldl processMouseReport s).lmbPressed =
        decide ((rs.getLastD d).buttons &&& 1 ≠ 0) ∧
      (rs.foldl processMouseReport s).rmbPressed =
        decide ((rs.getLastD d).buttons &&& 2 ≠ 0) := by
  induction rs with
  | nil => intro s d hne; cases hne rfl
  | cons r rest ih =>
    intro s d _
    rw [List.getLastD_cons]
    cases rest with
    | nil => exact ⟨rfl, rfl⟩
    | cons r2 rest2 =>
      exact ih (processMouseReport s r) r (List.cons_ne_nil _ _)

lemma satFold127 : ∀ (n : Nat) (a : Int), 0 ≤ a → a ≤ 32767 →
    (List.replicate n (⟨0, 127, 0⟩ : MouseReport)).foldl
      (fun acc r => specSatAdd16 acc r.x) a = min 32767 (a + 127 * n) := by
  intro n
  induction n with
  | zero => intro a h1 h2; simp; omega
  | succ m ih =>
    intro a h1 h2
    rw [List.replicate_succ, List.foldl_cons]
    have hstep : specSatAdd16 a (⟨0, 127, 0⟩ : MouseReport).x = min 32767 (a + 127) := by
      show specSatAdd16 a 127 = min 32767 (a + 127)
      unfold specSatAdd16; omega
    rw [hstep, ih (min 32767 (a + 127)) (by omega) (by omega)]
    have : (↑(m + 1) : Int) = (m : Int) + 1 := by push_cast; ring
    rw [this]; omega

/-- C7 counterexample: the claim says deltas accumulate with saturation at the
signed 16-bit bounds.  Delivering 259 reports of dx = +127 from a fresh
accumulator leaves the code's dx at -32643 (the sum 32893 wrapped to int16_t),
while the saturating accumulation the claim describes yields 32767. -/
theorem c7_counterexample :
    (List.foldl processMouseReport initialState
      (List.replicate 259 ⟨0, 127, 0⟩)).dx = -32643 ∧
    ((List.replicate 259 (⟨0, 127, 0⟩ : MouseReport)).foldl
      (fun a r => specSatAdd16 a r.x) 0) = 32767 ∧
    (-32643 : Int) ≠ 32767 := by
  refine ⟨?_, ?_, by decide⟩
  · rw [foldl_mouse_dx (List.replicate 259 ⟨0, 127, 0⟩) initialState
      (by decide) (by decide)]
    show wrap16 (0 + ((List.replicate 259 (⟨0, 127, 0⟩ : MouseReport)).map
      MouseReport.x).sum) = -32643
    rw [List.map_replicate, List.sum_replicate]
    decide
  · rw [satFold127 259 0 (by decide) (by decide)]
    decide

/-- C7 as amended: between two emissions (dx = dy = 0 at the start), each
mouse report overwrites lmb/rmb with bits 0 and 1 of the buttons byte, and
dx/dy accumulate the signed deltas with 16-bit two's-complement wrapping (not
saturation), so at emission time dx and dy equal the wrapped sum of every
delta delivered since the previous send. -/
theorem c7_mouse_accumulation (s : St) (rs : List MouseReport) (hne : rs ≠ [])
    (hdx : s.dx = 0) (hdy : s.dy = 0) :
    (rs.foldl processMouseReport s).dx = wrap16 ((rs.map MouseReport.x).sum) ∧
    (rs.foldl processMouseReport s).dy = wrap16 ((rs.map MouseReport.y).sum) ∧
    (rs.foldl processMouseReport s).lmbPressed =
      decide ((rs.getLastD ⟨0, 0, 0⟩).buttons &&& 1 ≠ 0) ∧
    (rs.foldl processMouseReport s).rmbPressed =
      decide ((rs.getLastD ⟨0, 0, 0⟩).buttons &&& 2 ≠ 0) := by
  obtain ⟨hl, hr⟩ := foldl_mouse_buttons rs s ⟨0, 0, 0⟩ hne
  refine ⟨?_, ?_, hl, hr⟩
  · rw [foldl_mouse_dx rs s (by omega) (by omega), hdx, zero_add]
  · rw [foldl_mouse_dy rs s (by omega) (by omega), hdy, zero_add]

/-- Witness for C7 at a concrete two-report run. -/
theorem c7_mouse_accumulation_witness :
    (([⟨1, 10, -5⟩, ⟨1, 3, -2⟩] : List MouseReport).foldl
      processMouseReport initialState).dx = wrap16 (10 + 3) := by
  have h := c7_mouse_accumulation initialState [⟨1, 10, -5⟩, ⟨1, 3, -2⟩]
    (by decide) rfl rfl
  simpa using h.1

/-! ## C8: repeat timer tick and break-clearing -/

lemma compareKeybList_keeps_cleared (other : List Nat) (ks : List Nat) :
    ∀ s : St, s.keyRepeatKeyCode = 0 → s.keyRepeatCountdown = 0 →
      (compareKeybList other false ks s).1.keyRepeatKeyCode = 0 ∧
      (compareKeybList other false ks s).1.keyRepeatCountdown = 0 := by
  induction ks with
  | nil => intro s h1 h2; exact ⟨h1, h2⟩
  | cons k rest ih =>
    intro s h1 h2
    simp only [compareKeybList, HID_KEY_NONE]
    by_cases hskip : k = 0 ∨ k ≤ 0x03
    · simp only [hskip, if_true]
      exact ih s h1 h2
    · simp only [hskip, if_false]
      by_cases hpres : isPresentInReport other k = true
      · simp only [hpres, if_true]
        exact ih s h1 h2
      · simp only [hpres, if_false, Bool.false_eq_true]
        have hne : ¬(s.keyRepeatKeyCode = k) := by omega
        simp only [if_false, hne]
        exact ih s h1 h2

lemma compareKeybList_clears (other : List Nat) (ks : List Nat) :
    ∀ s : St, 3 < s.keyRepeatKeyCode → s.keyRepeatKeyCode ∈ ks →
      isPresentInReport other s.keyRepeatKeyCode = false →
      (compareKeybList other false ks s).1.keyRepeatKeyCode = 0 ∧
      (compareKeybList other false ks s).1.keyRepeatCountdown = 0 := by
  induction ks with
  | nil => intro s _ hmem _; cases hmem
  | cons k rest ih =>
    intro s hk hmem hnp
    simp only [compareKeybList, HID_KEY_NONE]
    by_cases hskip : k = 0 ∨ k ≤ 0x03
    · simp only [hskip, if_true]
      refine ih s hk ?_ hnp
      rcases List.mem_cons.mp hmem with he | hm
      · omega
      · exact hm
    · simp only [hskip, if_false]
      by_cases hpres : isPresentInReport other k = true
      · simp only [hpres, if_true]
        refine ih s hk ?_ hnp
        rcases List.mem_cons.mp hmem with he | hm
        · rw [he] at hnp; rw [hnp] at hpres; cases hpres
        · exact hm
      · simp only [hpres, if_false, Bool.false_eq_true]
        by_cases heq : s.keyRepeatKeyCode = k
        · simp only [heq, if_true, if_pos rfl]
          exact compareKeybList_keeps_cleared other rest _ rfl rfl
        · simp only [if_false, heq]
          refine ih s hk ?_ hnp
          rcases List.mem_cons.mp hmem with he | hm
          · exact absurd he heq
          · exact hm

/-- C8: on a periodic tick with elapsed milliseconds dt, (a) the disarmed
state (keyCode = 0, countdown = 0) produces no action; (b) an armed countdown
is decremented by dt, and when the result reaches ≤ 0 the make emission for
the armed keyCode is produced and the countdown is reloaded with
repeatInterval, otherwise nothing is emitted (bounds keep the int32 decrement
exact); (c) when the break pass emits a break for the currently armed repeat
key, the repeat state is cleared to (0, 0), so no further repeat makes occur. -/
theorem c8_repeat_tick (s : St) (dt : Nat) :
    (s.keyRepeatKeyCode = 0 → s.keyRepeatCountdown = 0 →
      handleKeyRepeats s dt = (s, [])) ∧
    (0 < s.keyRepeatCountdown → s.keyRepeatCountdown < 2147483648 →
      (dt : Int) ≤ 2147483648 →
      ((s.keyRepeatCountdown ≤ (dt : Int) →
        (handleKeyRepeats s dt).2 = sendKeycode s.keyRepeatKeyCode true ∧
        (handleKeyRepeats s dt).1.keyRepeatCountdown = (s.keyRepeatInterval : Int) ∧
        (handleKeyRepeats s dt).1.keyRepeatKeyCode = s.keyRepeatKeyCode) ∧
       ((dt : Int) < s.keyRepeatCountdown →
        (handleKeyRepeats s dt).2 = [] ∧
        (handleKeyRepeats s dt).1.keyRepeatCountdown =
          s.keyRepeatCountdown - (dt : Int)))) ∧
    (∀ ks other, 3 < s.keyRepeatKeyCode → s.keyRepeatKeyCode ∈ ks →
      isPresentInReport other s.keyRepeatKeyCode = false →
      (compareKeybList other false ks s).1.keyRepeatKeyCode = 0 ∧
      (compareKeybList other false ks s).1.keyRepeatCountdown = 0) := by
  refine ⟨?_, ?_, fun ks other hk hm hp => compareKeybList_clears other ks s hk hm hp⟩
  · intro _ h2
    unfold handleKeyRepeats
    simp [h2]
  · intro hpos hlt hdt
    have hne : s.keyRepeatCountdown ≠ 0 := by omega
    have hw : wrap32 (s.keyRepeatCountdown - (dt : Int)) =
        s.keyRepeatCountdown - (dt : Int) := by
      have : (0 : Int) ≤ (dt : Int) := Int.natCast_nonneg dt
      exact wrap32_eq_self _ (by omega) (by omega)
    constructor
    · intro hle
      have hc : wrap32 (s.keyRepeatCountdown - (dt : Int)) ≤ 0 := by rw [hw]; omega
      unfold handleKeyRepeats
      simp [hne, hc]
    · intro hgt
      have hc2 : ¬(s.keyRepeatCountdown ≤ (dt : Int)) := by omega
      unfold handleKeyRepeats
      simp [hne, hw, hc2]

/-- Witness for C8 at concrete states: the disarmed initial state ticks to no
action; an armed state with countdown 100 and dt 150 emits the make for key
4 and reloads the interval; the break pass for the armed key clears it. -/
theorem c8_repeat_tick_witness :
    handleKeyRepeats initialState 16 = (initialState, []) ∧
    (handleKeyRepeats { initialState with keyRepeatKeyCode := 4, keyRepeatCountdown := 100 } 150).2 = sendKeycode 4 true ∧
    (compareKeybList [0, 0, 0, 0, 0, 0] false [4, 0, 0, 0, 0, 0] { initialState with keyRepeatKeyCode := 4, keyRepeatCountdown := 100 }).1.keyRepeatKeyCode = 0 := by
  refine ⟨(c8_repeat_tick initialState 16).1 rfl rfl, ?_, ?_⟩
  · exact (((c8_repeat_tick { initialState with keyRepeatKeyCode := 4, keyRepeatCountdown := 100 } 150).2.1 (by decide) (by decide) (by decide)).1 (by decide)).1
  · exact ((c8_repeat_tick { initialState with keyRepeatKeyCode := 4, keyRepeatCountdown := 100 } 0).2.2 [4, 0, 0, 0, 0, 0] [0, 0, 0, 0, 0, 0] (by decide) (by decide) (by decide)).1

/-! ## C10: RepeatState shape invariant -/

lemma hostByte_Inv (s : St) (ch : Nat) (h : Inv s) : Inv (hostByte s ch) := by
  obtain ⟨hr, hd, hi⟩ := h
  unfold hostByte
  split_ifs <;> refine ⟨hr, ?_, ?_⟩ <;>
    first
      | exact hd
      | exact hi
      | exact (by omega : (0 : Nat) < 200 + (ch &&& 0x0f) * 100)
      | exact (by omega : (0 : Nat) < 30 + (ch &&& 0x0f) * (ch &&& 0x0f) * 5)

lemma uartISR_Inv (input : List Nat) : ∀ s : St, Inv s → Inv (uartISR s input) := by
  induction input with
  | nil => intro s h; exact h
  | cons ch rest ih =>
    intro s h
    exact ih (hostByte s ch) (hostByte_Inv s ch h)

lemma uartISR_fields (input : List Nat) :
    ∀ s : St, (uartISR s input).txInhibit = s.txInhibit ∧
      (uartISR s input).keyRepeatKeyCode = s.keyRepeatKeyCode ∧
      (uartISR s input).keyRepeatCountdown = s.keyRepeatCountdown := by
  induction input with
  | nil => intro s; exact ⟨rfl, rfl, rfl⟩
  | cons ch rest ih =>
    intro s
    have hh : (hostByte s ch).txInhibit = s.txInhibit ∧
        (hostByte s ch).keyRepeatKeyCode = s.keyRepeatKeyCode ∧
        (hostByte s ch).keyRepeatCountdown = s.keyRepeatCountdown := by
      unfold hostByte
      split_ifs <;> exact ⟨rfl, rfl, rfl⟩
    obtain ⟨h1, h2, h3⟩ := ih (hostByte s ch)
    exact ⟨h1.trans hh.1, h2.trans hh.2.1, h3.trans hh.2.2⟩

lemma compareKeybList_Inv (other : List Nat) (make : Bool) (ks : List Nat) :
    ∀ s : St, Inv s → Inv (compareKeybList other make ks s).1 := by
  induction ks with
  | nil => intro s h; exact h
  | cons k rest ih =>
    intro s h
    simp only [compareKeybList, HID_KEY_NONE]
    by_cases hskip : k = 0 ∨ k ≤ 0x03
    · simp only [hskip, if_true]; exact ih s h
    · simp only [hskip, if_false]
      by_cases hpres : isPresentInReport other k = true
      · simp only [hpres, if_true]; exact ih s h
      · simp only [hpres, if_false, Bool.false_eq_true]
        obtain ⟨hr, hd, hi⟩ := h
        cases make with
        | true =>
          simp only [if_true]
          refine ih _ ⟨Or.inr ⟨?_, ?_⟩, hd, hi⟩
          · show k ≠ 0
            omega
          · show (0 : Int) < (s.keyRepeatDelay : Int)
            exact_mod_cast hd
        | false =>
          simp only [Bool.false_eq_true, if_false]
          by_cases heq : s.keyRepeatKeyCode = k
          · simp only [heq, if_pos rfl]
            exact ih _ ⟨Or.inl ⟨rfl, rfl⟩, hd, hi⟩
          · simp only [if_false, heq]
            exact ih s ⟨hr, hd, hi⟩

lemma processKeybReport_Inv (s : St) (r : KeybReport) (h : Inv s) :
    Inv (processKeybReport s r).1 := by
  unfold processKeybReport compareKeybReports
  have h1 := compareKeybList_Inv r.keycode false s.prevReport.keycode s h
  have h2 := compareKeybList_Inv s.prevReport.keycode true r.keycode _ h1
  exact h2

lemma handleKeyRepeats_Inv (s : St) (dt : Nat) (h : Inv s) :
    Inv (handleKeyRepeats s dt).1 := by
  obtain ⟨hr, hd, hi⟩ := h
  simp only [handleKeyRepeats]
  split_ifs with h1 h2
  · have hk : s.keyRepeatKeyCode ≠ 0 := by
      rcases hr with ⟨ha, hb⟩ | hb
      · exact absurd hb h1
      · exact hb.1
    refine ⟨Or.inr ⟨hk, ?_⟩, hd, hi⟩
    show (0 : Int) < (s.keyRepeatInterval : Int)
    exact_mod_cast hi
  · have hk : s.keyRepeatKeyCode ≠ 0 := by
      rcases hr with ⟨ha, hb⟩ | hb
      · exact absurd hb h1
      · exact hb.1
    refine ⟨Or.inr ⟨hk, ?_⟩, hd, hi⟩
    show (0 : Int) < wrap32 (s.keyRepeatCountdown - (dt : Int))
    omega
  · exact ⟨hr, hd, hi⟩

lemma sendMouse_Inv (s : St) (h : Inv s) : Inv (sendMouse s).1 := by
  obtain ⟨hr, hd, hi⟩ := h
  simp only [sendMouse]
  split_ifs <;> exact ⟨hr, hd, hi⟩

lemma gpioISR_Inv (s : St) (g e : Nat) (h : Inv s) : Inv (gpioISR s g e).1 := by
  obtain ⟨hr, hd, hi⟩ := h
  unfold gpioISR
  split_ifs with h1 h2
  · exact sendMouse_Inv s ⟨hr, hd, hi⟩
  · exact ⟨hr, hd, hi⟩
  · exact ⟨hr, hd, hi⟩

lemma processMouseReport_Inv (s : St) (mr : MouseReport) (h : Inv s) :
    Inv (processMouseReport s mr) := by
  obtain ⟨hr, hd, hi⟩ := h
  exact ⟨hr, hd, hi⟩

lemma processKeybAndMouse_Inv (s : St) (input : List Nat) (dt : Nat) (h : Inv s) :
    Inv (processKeybAndMouse s input dt).1 := by
  unfold processKeybAndMouse
  have h1 := uartISR_Inv input s h
  by_cases hm : ¬s.msctrlAsserted ∧ (uartISR s input).msctrlAsserted
  · simp only [hm, if_true]
    exact handleKeyRepeats_Inv _ dt (sendMouse_Inv _ h1)
  · simp only [hm, if_false]
    exact handleKeyRepeats_Inv _ dt h1

/-- C10: RepeatState is always disarmed (keyCode = 0, countdown = 0) or armed
(keyCode nonzero, countdown positive).  The invariant (strengthened with the
positivity of repeatDelay and repeatInterval, which all commands maintain)
holds initially and is preserved by every operation: keyboard report
processing, the periodic tick, host command parsing, mouse-report handling,
mouse emission, and the GPIO edge handler.  In particular the countdown is
never negative after an operation completes. -/
theorem c10_repeat_invariant :
    Inv initialState ∧
    ∀ s : St, Inv s →
      (∀ r, Inv (processKeybReport s r).1) ∧
      (∀ input dt, Inv (processKeybAndMouse s input dt).1) ∧
      (∀ input, Inv (uartISR s input)) ∧
      (∀ mr, Inv (processMouseReport s mr)) ∧
      Inv (sendMouse s).1 ∧
      (∀ g e, Inv (gpioISR s g e).1) := by
  refine ⟨⟨Or.inl ⟨rfl, rfl⟩, by decide, by decide⟩, fun s h => ?_⟩
  exact ⟨fun r => processKeybReport_Inv s r h,
         fun input dt => processKeybAndMouse_Inv s input dt h,
         fun input => uartISR_Inv input s h,
         fun mr => processMouseReport_Inv s mr h,
         sendMouse_Inv s h,
         fun g e => gpioISR_Inv s g e h⟩

/-- Witness for C10 at the initial state and a concrete report. -/
theorem c10_repeat_invariant_witness :
    Inv (processKeybReport initialState ⟨0, [4, 0, 0, 0, 0, 0]⟩).1 :=
  ((c10_repeat_invariant.2 initialState c10_repeat_invariant.1).1
    ⟨0, [4, 0, 0, 0, 0, 0]⟩)

/-! ## C1 and C2: inhibit gating -/

lemma compareKeybList_snd (other : List Nat) (make : Bool) (ks : List Nat) :
    ∀ s : St, (compareKeybList other make ks s).2 = emittedList other make ks := by
  induction ks with
  | nil => intro s; rfl
  | cons k rest ih =>
    intro s
    simp only [compareKeybList, emittedList, emitted, HID_KEY_NONE]
    by_cases hskip : k = 0 ∨ k ≤ 0x03
    · have hk3 : k ≤ 3 := by omega
      simp [hskip, hk3, ih]
    · have hk0 : ¬(k = 0) := by omega
      have hk3 : ¬(k ≤ 3) := by omega
      by_cases hp : isPresentInReport other k = true
      · simp [hskip, hk0, hk3, hp, ih]
      · simp [hskip, hk0, hk3, hp, ih]

lemma processKeybReport_snd (s : St) (r : KeybReport) :
    (processKeybReport s r).2 =
      modifierBytes s.prevReport.modifier r.modifier ++
      (emittedList r.keycode false s.prevReport.keycode ++
       emittedList s.prevReport.keycode true r.keycode) := by
  simp only [processKeybReport, compareKeybReports]
  rw [compareKeybList_snd, compareKeybList_snd, List.append_assoc]

/-- C1 counterexample: while txInhibit is true, processing a keyboard report
holding HID key A still writes the make byte 0x1E to the keyboard serial
sink, so the claim that no byte reaches either sink under txInhibit is false
for keyboard events. -/
theorem c1_counterexample :
    (processKeybReport { initialState with txInhibit := true }
      ⟨0, [4, 0, 0, 0, 0, 0]⟩).2 = [0x1e] := by decide

/-- C1 as amended: while txInhibit is true no byte is written to the MOUSE
serial sink by any event (direct mouse emission, a GPIO mouse-request edge,
or an MSCTRL command edge detected inside the periodic tick); keyboard-sink
writes are not gated by txInhibit (see the counterexample). -/
theorem c1_txInhibit_mouse_silence (s : St) (h : s.txInhibit = true) :
    (sendMouse s).2.1 = [] ∧
    (∀ g e, (gpioISR s g e).2.1 = []) ∧
    (∀ input dt, (processKeybAndMouse s input dt).2.2.1 = []) := by
  have hsm : (sendMouse s).2.1 = [] := by simp [sendMouse, h]
  refine ⟨hsm, ?_, ?_⟩
  · intro g e
    unfold gpioISR
    split_ifs
    · exact hsm
    · rfl
    · rfl
  · intro input dt
    have htx : (uartISR s input).txInhibit = true := (uartISR_fields input s).1.trans h
    by_cases hm : s.msctrlAsserted
    · simp [processKeybAndMouse, hm]
    · by_cases hm2 : (uartISR s input).msctrlAsserted
      · simp [processKeybAndMouse, hm, hm2, sendMouse, htx]
      · simp [processKeybAndMouse, hm, hm2]

/-- Witness for C1 at a concretely inhibited state. -/
theorem c1_txInhibit_mouse_silence_witness :
    (sendMouse { initialState with txInhibit := true }).2.1 = [] :=
  (c1_txInhibit_mouse_silence { initialState with txInhibit := true } rfl).1

/-- C2 counterexample: while keyInhibit is true, processing a keyboard report
holding HID key A still emits the make scancode 0x1E, so the claim that no
keyboard scancode byte is emitted under keyInhibit is false. -/
theorem c2_counterexample :
    (processKeybReport { initialState with keyInhibit := true }
      ⟨0, [4, 0, 0, 0, 0, 0]⟩).2 = [0x1e] := by decide

/-- C2 as amended: keyInhibit does not gate keyboard scancode emission at all
(the bytes a report produces are identical whether keyInhibit is true or
false), while bytes received on the keyboard link are still parsed as host
commands and still mutate ConfigState (a repeat-delay command byte 0x65
received while keyInhibit is true still sets repeatDelay to 700 ms). -/
theorem c2_keyInhibit_no_gating (s : St) (r : KeybReport) :
    (processKeybReport { s with keyInhibit := true } r).2 =
      (processKeybReport { s with keyInhibit := false } r).2 ∧
    (uartISR { s with keyInhibit := true } [0x65]).keyRepeatDelay = 700 := by
  constructor
  · rw [processKeybReport_snd, processKeybReport_snd]
  · show (hostByte { s with keyInhibit := true } 0x65).keyRepeatDelay = 700
    unfold hostByte
    rw [if_neg (by decide), if_neg (by decide), if_neg (by decide),
        if_pos (by decide)]
    rfl

/-! ## C3: make/break balance -/

lemma keyScan_lt_128 : ∀ i, i < 97 → keycodeScans.getD i 0 < 128 := by decide

lemma modScan_lt_128 : ∀ i, i < 8 → modifierScans.getD i 0 < 128 := by decide

lemma modScan_mem : ∀ i, i < 8 → modifierScans.getD i 0 ∈ modifierScans := by decide

lemma lor_128 : ∀ a, a < 128 → a ||| 128 = a + 128 := by decide

lemma countB_nil (b : Nat) : countB b [] = 0 := rfl

lemma countB_singleton (b x : Nat) : countB b [x] = if x = b then 1 else 0 := by
  simp [countB, countIf]

lemma sendKeycode_cases (k : Nat) (make : Bool) :
    sendKeycode k make = [] ∨ ∃ x, sendKeycode k make = [x] := by
  unfold sendKeycode
  split
  · exact Or.inl rfl
  · exact Or.inr ⟨_, rfl⟩

lemma countB_emitted_true (other : List Nat) (b k : Nat) :
    countB b (emitted other true k) = if makePred other b k = true then 1 else 0 := by
  unfold emitted makePred
  by_cases h3 : k ≤ 3
  · have hd : decide (3 < k) = false := by simp; omega
    simp [h3, hd, countB_nil]
  · have hk3 : 3 < k := by omega
    have hd : decide (3 < k) = true := by simp; omega
    by_cases hp : isPresentInReport other k = true
    · simp [h3, hp, hd, countB_nil]
    · have hp' : isPresentInReport other k = false := by
        rw [Bool.not_eq_true] at hp; exact hp
      rcases sendKeycode_cases k true with hk | ⟨x, hk⟩
      · simp [h3, hp', hk, countB_nil]
      · simp [h3, hp', hk, countB_singleton, List.cons.injEq, hk3]

lemma countB_emitted_true_hi (other : List Nat) (b k : Nat) (hb : b < 128) :
    countB (b + 128) (emitted other true k) = 0 := by
  unfold emitted sendKeycode
  by_cases h3 : k ≤ 3
  · simp [h3, countB_nil]
  · by_cases hp : isPresentInReport other k = true
    · simp [h3, hp, countB_nil]
    · by_cases hrange : k < HID_KEY_A ∨ keycodeScans.length ≤ k - HID_KEY_A
      · simp [h3, hp, hrange, countB_nil]
      · have hlen : keycodeScans.length = 97 := rfl
        have hidx : k - HID_KEY_A < 97 := by
          unfold HID_KEY_A at hrange ⊢
          omega
        have hscan := keyScan_lt_128 _ hidx
        set scan := keycodeScans.getD (k - HID_KEY_A) 0 with hset
        have hne : ¬(scan = b + 128) := by omega
        simp [h3, hp, hrange, countB_singleton, Nat.or_zero, hne]

lemma countB_emitted_false_lo (other : List Nat) (b k : Nat) (hb : b < 128) :
    countB b (emitted other false k) = 0 := by
  unfold emitted sendKeycode
  by_cases h3 : k ≤ 3
  · simp [h3, countB_nil]
  · by_cases hp : isPresentInReport other k = true
    · simp [h3, hp, countB_nil]
    · by_cases hrange : k < HID_KEY_A ∨ keycodeScans.length ≤ k - HID_KEY_A
      · simp [h3, hp, hrange, countB_nil]
      · have hlen : keycodeScans.length = 97 := rfl
        have hidx : k - HID_KEY_A < 97 := by
          unfold HID_KEY_A at hrange ⊢
          omega
        have hscan := keyScan_lt_128 _ hidx
        set scan := keycodeScans.getD (k - HID_KEY_A) 0 with hset
        have hne : ¬(scan + 128 = b) := by omega
        simp [h3, hp, hrange, countB_singleton, lor_128 _ hscan, hne]

lemma countB_emitted_false_hi (other : List Nat) (b k : Nat) (hb : b < 128) :
    countB (b + 128) (emitted other false k) =
      if makePred other b k = true then 1 else 0 := by
  unfold emitted makePred sendKeycode
  by_cases h3 : k ≤ 3
  · have hd : decide (3 < k) = false := by simp; omega
    simp [h3, hd, countB_nil]
  · have hk3 : 3 < k := by omega
    have hd : decide (3 < k) = true := by simp; omega
    by_cases hp : isPresentInReport other k = true
    · simp [h3, hp, hd, countB_nil]
    · have hp' : isPresentInReport other k = false := by
        rw [Bool.not_eq_true] at hp; exact hp
      by_cases hrange : k < HID_KEY_A ∨ keycodeScans.length ≤ k - HID_KEY_A
      · simp [h3, hp', hrange, countB_nil]
      · have hlen : keycodeScans.length = 97 := rfl
        have hidx : k - HID_KEY_A < 97 := by
          unfold HID_KEY_A at hrange ⊢
          omega
        have hscan := keyScan_lt_128 _ hidx
        set scan := keycodeScans.getD (k - HID_KEY_A) 0 with hset
        have hiff : (scan + 128 = b + 128) ↔ (scan = b) := by omega
        simp [h3, hp', hrange, countB_singleton, lor_128 _ hscan, Nat.or_zero,
          List.cons.injEq, hiff, hk3]

lemma countB_emittedList_true (other : List Nat) (b : Nat) (ks : List Nat) :
    countB b (emittedList other true ks) = countIf (makePred other b) ks := by
  induction ks with
  | nil => rfl
  | cons k rest ih =>
    show countB b (emitted other true k ++ emittedList other true rest) = _
    rw [countB_append, countB_emitted_true, ih]
    rfl

lemma countB_emittedList_true_hi (other : List Nat) (b : Nat) (ks : List Nat)
    (hb : b < 128) : countB (b + 128) (emittedList other true ks) = 0 := by
  induction ks with
  | nil => rfl
  | cons k rest ih =>
    show countB (b + 128) (emitted other true k ++ emittedList other true rest) = 0
    rw [countB_append, countB_emitted_true_hi other b k hb, ih]

lemma countB_emittedList_false_lo (other : List Nat) (b : Nat) (ks : List Nat)
    (hb : b < 128) : countB b (emittedList other false ks) = 0 := by
  induction ks with
  | nil => rfl
  | cons k rest ih =>
    show countB b (emitted other false k ++ emittedList other false rest) = 0
    rw [countB_append, countB_emitted_false_lo other b k hb, ih]

lemma countB_emittedList_false_hi (other : List Nat) (b : Nat) (ks : List Nat)
    (hb : b < 128) :
    countB (b + 128) (emittedList other false ks) = countIf (makePred other b) ks := by
  induction ks with
  | nil => rfl
  | cons k rest ih =>
    show countB (b + 128) (emitted other false k ++ emittedList other false rest) = _
    rw [countB_append, countB_emitted_false_hi other b k hb, ih]
    rfl

lemma countB_modBit (m1 m2 i b : Nat) (hi : i < 8) (hb : b < 128)
    (hm : b ∉ modifierScans) :
    countB b (modBit m1 m2 i) = 0 ∧ countB (b + 128) (modBit m1 m2 i) = 0 := by
  have hs := modScan_lt_128 i hi
  have hmem := modScan_mem i hi
  have hne : modifierScans.getD i 0 ≠ b := fun he => hm (he ▸ hmem)
  unfold modBit
  set scan := modifierScans.getD i 0 with hset
  split_ifs with h1 h2
  · have hne2 : ¬(scan = b + 128) := by omega
    constructor <;> simp [countB_singleton, Nat.or_zero, hne, hne2]
  · have hne3 : ¬(scan + 128 = b) := by omega
    have hne4 : ¬(scan + 128 = b + 128) := by omega
    constructor <;> simp [countB_singleton, lor_128 _ hs, hne3, hne4]
  · exact ⟨rfl, rfl⟩

lemma countB_modifierBytes (m1 m2 b : Nat) (hb : b < 128) (hm : b ∉ modifierScans) :
    countB b (modifierBytes m1 m2) = 0 ∧ countB (b + 128) (modifierBytes m1 m2) = 0 := by
  unfold modifierBytes
  split_ifs with h0
  · exact ⟨rfl, rfl⟩
  · have l0 := countB_modBit m1 m2 0 b (by omega) hb hm
    have l1 := countB_modBit m1 m2 1 b (by omega) hb hm
    have l2 := countB_modBit m1 m2 2 b (by omega) hb hm
    have l3 := countB_modBit m1 m2 3 b (by omega) hb hm
    have l4 := countB_modBit m1 m2 4 b (by omega) hb hm
    have l5 := countB_modBit m1 m2 5 b (by omega) hb hm
    have l6 := countB_modBit m1 m2 6 b (by omega) hb hm
    have l7 := countB_modBit m1 m2 7 b (by omega) hb hm
    constructor <;> simp [countB_append, l0.1, l1.1, l2.1, l3.1, l4.1, l5.1, l6.1, l7.1,
      l0.2, l1.2, l2.2, l3.2, l4.2, l5.2, l6.2, l7.2]

lemma countIf_indicator (q : Nat → Bool) (k : Nat) (A : List Nat) :
    countIf (fun c => q c && c == k) A = if q k = true then countB k A else 0 := by
  induction A with
  | nil => cases hq : q k <;> simp [countIf, countB, hq]
  | cons x xs ih =>
    by_cases hx : x = k
    · subst hx
      cases hq : q x <;>
        simp only [countIf, countB, hq, beq_self_eq_true, Bool.and_true,
          Bool.true_and, Bool.and_false, Bool.false_and, if_true, if_false] <;>
        simp only [countB] at ih <;> rw [ih] <;> simp [hq]
    · have hbx : (x == k) = false := by simp [hx]
      simp only [countIf, countB, hbx, Bool.and_false, if_false]
      simp only [countB] at ih
      rw [ih]
      cases hq : q k <;> simp

lemma dupFree_tail (x : Nat) (xs : List Nat) (h : dupFree (x :: xs)) : dupFree xs :=
  fun k hk h3 => le_trans (countB_cons_le k x xs) (h k (List.mem_cons_of_mem x hk) h3)

lemma dupFree_head_not_mem (x : Nat) (xs : List Nat) (h : dupFree (x :: xs))
    (h3 : 3 < x) : x ∉ xs := by
  intro hmem
  have h1 := h x (List.mem_cons_self x xs) h3
  have h2 := countB_pos_of_mem x xs hmem
  have : countB x (x :: xs) = 1 + countB x xs := by simp [countB, countIf]
  omega

lemma countB_eq_of_dupFree (k : Nat) (A : List Nat) (hA : dupFree A) (h3 : 3 < k) :
    countB k A = if isPresentInReport A k = true then 1 else 0 := by
  by_cases hmem : k ∈ A
  · have h1 := hA k hmem h3
    have h2 := countB_pos_of_mem k A hmem
    have hp : isPresentInReport A k = true := (isPresent_iff A k).mpr hmem
    rw [hp]
    show countB k A = 1
    omega
  · have hp : isPresentInReport A k = false := by
      rw [← Bool.not_eq_true, isPresent_iff]; exact hmem
    rw [hp]
    simp [countB_eq_zero_of_not_mem k A hmem]

lemma cross_swap (q : Nat → Bool) (hq : ∀ k, q k = true → 3 < k) :
    ∀ (B A : List Nat), dupFree A → dupFree B →
      countIf (fun k => q k && isPresentInReport A k) B =
      countIf (fun k => q k && isPresentInReport B k) A := by
  intro B
  induction B with
  | nil =>
    intro A _ _
    rw [countIf_congr (fun k => q k && isPresentInReport [] k) (fun _ => false) A
      (by intro c _; simp [isPresentInReport])]
    simp [countIf_false, countIf]
  | cons x B2 ih =>
    intro A hA hB
    have hB2 : dupFree B2 := dupFree_tail x B2 hB
    -- left side: peel the head of B
    have hcons : countIf (fun k => q k && isPresentInReport A k) (x :: B2) =
        (if (q x && isPresentInReport A x) = true then 1 else 0) +
        countIf (fun k => q k && isPresentInReport A k) B2 := rfl
    rw [hcons, ih A hA hB2]
    -- right side target: expand membership in (x :: B2)
    have hexp : countIf (fun k => q k && isPresentInReport (x :: B2) k) A =
        countIf (fun k => (q k && isPresentInReport (x :: B2) k) && k == x) A +
        countIf (fun k => (q k && isPresentInReport (x :: B2) k) && !(k == x)) A :=
      (countIf_split _ _ A).symm
    rw [hexp]
    -- first summand is the indicator of x
    have he1 : countIf (fun k => (q k && isPresentInReport (x :: B2) k) && k == x) A =
        countIf (fun k => q k && k == x) A := by
      apply countIf_congr
      intro c _
      by_cases hcx : c = x
      · subst hcx
        have : isPresentInReport (c :: B2) c = true := by
          simp [isPresentInReport]
        simp [this]
      · have : (c == x) = false := by simp [hcx]
        simp [this]
    -- second summand drops the head
    have he2 : countIf (fun k => (q k && isPresentInReport (x :: B2) k) && !(k == x)) A =
        countIf (fun k => (q k && isPresentInReport B2 k) && !(k == x)) A := by
      apply countIf_congr
      intro c _
      by_cases hcx : c = x
      · subst hcx; simp
      · have hxc : ¬x = c := fun h => hcx h.symm
        have hb : (x == c) = false := by simp [hxc]
        have : isPresentInReport (x :: B2) c = isPresentInReport B2 c := by
          simp [isPresentInReport, hb]
        simp [this]
    rw [he1, he2]
    have hind : countIf (fun k => q k && k == x) A =
        if q x = true then countB x A else 0 := countIf_indicator q x A
    -- relate the !(k == x) filtered count to the unfiltered one
    have hsplit2 : countIf (fun k => (q k && isPresentInReport B2 k) && k == x) A +
        countIf (fun k => (q k && isPresentInReport B2 k) && !(k == x)) A =
        countIf (fun k => q k && isPresentInReport B2 k) A :=
      countIf_split _ _ A
    have hzero : countIf (fun k => (q k && isPresentInReport B2 k) && k == x) A = 0 := by
      rw [countIf_indicator (fun k => q k && isPresentInReport B2 k) x A]
      by_cases hqx : q x = true
      · have h3 : 3 < x := hq x hqx
        have hnm : x ∉ B2 := dupFree_head_not_mem x B2 hB h3
        have hp : isPresentInReport B2 x = false := by
          rw [← Bool.not_eq_true, isPresent_iff]; exact hnm
        simp [hqx, hp]
      · have hqx' : q x = false := by
          rw [← Bool.not_eq_true]; exact hqx
        simp [hqx']
    -- head indicator of the left side
    have hhead : (if (q x && isPresentInReport A x) = true then 1 else 0) =
        if q x = true then countB x A else 0 := by
      by_cases hqx : q x = true
      · by_cases hpx : isPresentInReport A x = true
        · have hmem : x ∈ A := (isPresent_iff A x).mp hpx
          have h1 := hA x hmem (hq x hqx)
          have h2 := countB_pos_of_mem x A hmem
          simp [hqx, hpx]
          omega
        · have hpx' : isPresentInReport A x = false := by
            rw [← Bool.not_eq_true]; exact hpx
          have hnm : x ∉ A := by
            rw [← isPresent_iff, hpx']; simp
          simp [hqx, hpx', countB_eq_zero_of_not_mem x A hnm]
      · have hqx' : q x = false := by
          rw [← Bool.not_eq_true]; exact hqx
        simp [hqx']
    omega

lemma makePred_eq (other : List Nat) (b : Nat) (k : Nat) :
    makePred other b k =
      ((decide (3 < k) && decide (sendKeycode k true = [b])) &&
       !isPresentInReport other k) := by
  unfold makePred
  cases h1 : decide (3 < k) <;> cases h2 : isPresentInReport other k <;>
    cases h3 : decide (sendKeycode k true = [b]) <;> simp [h1, h2, h3]

lemma diff_balance (prevK curK : List Nat) (b : Nat)
    (hA : dupFree prevK) (hB : dupFree curK) :
    countIf (makePred prevK b) curK + pressedCount b prevK =
    countIf (makePred curK b) prevK + pressedCount b curK := by
  have hq : ∀ k, (decide (3 < k) && decide (sendKeycode k true = [b])) = true →
      3 < k := by
    intro k hk
    simp only [Bool.and_eq_true, decide_eq_true_eq] at hk
    exact hk.1
  have hpc1 : pressedCount b prevK =
      countIf (fun k => decide (3 < k) && decide (sendKeycode k true = [b])) prevK := rfl
  have hpc2 : pressedCount b curK =
      countIf (fun k => decide (3 < k) && decide (sendKeycode k true = [b])) curK := rfl
  have he1 : countIf (makePred prevK b) curK =
      countIf (fun k => (decide (3 < k) && decide (sendKeycode k true = [b])) &&
        !isPresentInReport prevK k) curK :=
    countIf_congr _ _ curK (fun c _ => makePred_eq prevK b c)
  have he2 : countIf (makePred curK b) prevK =
      countIf (fun k => (decide (3 < k) && decide (sendKeycode k true = [b])) &&
        !isPresentInReport curK k) prevK :=
    countIf_congr _ _ prevK (fun c _ => makePred_eq curK b c)
  have hsplit1 := countIf_split
    (fun k => decide (3 < k) && decide (sendKeycode k true = [b]))
    (fun k => isPresentInReport prevK k) curK
  have hsplit2 := countIf_split
    (fun k => decide (3 < k) && decide (sendKeycode k true = [b]))
    (fun k => isPresentInReport curK k) prevK
  have hswap : countIf (fun k => (decide (3 < k) && decide (sendKeycode k true = [b])) &&
        isPresentInReport prevK k) curK =
      countIf (fun k => (decide (3 < k) && decide (sendKeycode k true = [b])) &&
        isPresentInReport curK k) prevK :=
    cross_swap (fun k => decide (3 < k) && decide (sendKeycode k true = [b])) hq
      curK prevK hA hB
  rw [hpc1, hpc2, he1, he2]
  omega

lemma run_balance (rs : List KeybReport) :
    ∀ s : St, (∀ r ∈ rs, dupFree r.keycode) → dupFree s.prevReport.keycode →
    ∀ b : Nat, b < 128 → b ∉ modifierScans →
      countB b (runReports s rs).2 + pressedCount b s.prevReport.keycode =
      countB (b + 128) (runReports s rs).2 +
        pressedCount b ((rs.getLastD s.prevReport).keycode) := by
  induction rs with
  | nil =>
    intro s _ _ b _ _
    rfl
  | cons r rest ih =>
    intro s hdf hs b hb hm
    have hr : dupFree r.keycode := hdf r (List.mem_cons_self r rest)
    have hrest : ∀ x ∈ rest, dupFree x.keycode :=
      fun x hx => hdf x (List.mem_cons_of_mem r hx)
    have hsnd : (runReports s (r :: rest)).2 =
        (processKeybReport s r).2 ++ (runReports (processKeybReport s r).1 rest).2 := rfl
    have hprev : (processKeybReport s r).1.prevReport = r := rfl
    obtain ⟨hmb1, hmb2⟩ :=
      countB_modifierBytes s.prevReport.modifier r.modifier b hb hm
    have ih' := ih (processKeybReport s r).1 hrest (by rw [hprev]; exact hr) b hb hm
    rw [hprev] at ih'
    have hbal := diff_balance s.prevReport.keycode r.keycode b hs hr
    have hlast : (r :: rest).getLastD s.prevReport = rest.getLastD r :=
      List.getLastD_cons _ _ _
    rw [hsnd, hlast, countB_append, countB_append, processKeybReport_snd,
        countB_append, countB_append, countB_append, countB_append,
        countB_emittedList_false_lo r.keycode b s.prevReport.keycode hb,
        countB_emittedList_true s.prevReport.keycode b r.keycode,
        countB_emittedList_false_hi r.keycode b s.prevReport.keycode hb,
        countB_emittedList_true_hi s.prevReport.keycode b r.keycode hb,
        hmb1, hmb2]
    omega

/-- C3 counterexample: the claim quantifies over every report sequence, but a
report that lists the same keycode in two slots breaks the balance.  The
sequence zero -> [5] -> [5,5] -> zero (HID key 5 = B, scan 0x2E; no sentinels,
no modifiers, no untranslatable keycodes) emits one make 0x2E and two breaks
0xAE. -/
theorem c3_counterexample :
    countB 0x2e (runReports initialState
      [⟨0, [5, 0, 0, 0, 0, 0]⟩, ⟨0, [5, 5, 0, 0, 0, 0]⟩, zeroReport]).2 = 1 ∧
    countB (0x2e + 128) (runReports initialState
      [⟨0, [5, 0, 0, 0, 0, 0]⟩, ⟨0, [5, 5, 0, 0, 0, 0]⟩, zeroReport]).2 = 2 := by
  exact ⟨by decide, by decide⟩

/-- C3 as amended: for any sequence of keyboard reports starting from the
all-zero previous report and ending with a return to the all-zero report, in
which no report lists the same (non-sentinel) keycode in two slots, the
multiset of make scancodes emitted equals the multiset of break scancodes
emitted: for every non-modifier byte value b < 0x80, the number of emitted
bytes equal to b (makes) equals the number equal to b + 0x80 (breaks).
Error sentinels and untranslatable keycodes emit nothing, and restricting b
away from the modifier scancode values ignores the modifier passes, as the
claim prescribes. -/
theorem c3_make_break_balance (rs : List KeybReport)
    (hdf : ∀ r ∈ rs, dupFree r.keycode)
    (hlast : rs.getLastD zeroReport = zeroReport)
    (b : Nat) (hb : b < 128) (hm : b ∉ modifierScans) :
    countB b (runReports initialState rs).2 =
    countB (b + 128) (runReports initialState rs).2 := by
  have h := run_balance rs initialState hdf (by decide) b hb hm
  have hpi : initialState.prevReport = zeroReport := rfl
  rw [hpi, hlast] at h
  have hz : pressedCount b zeroReport.keycode = 0 := rfl
  rw [hz] at h
  omega

/-- Witness for C3 on the concrete sequence zero -> [A] -> zero. -/
theorem c3_make_break_balance_witness :
    countB 0x1e (runReports initialState
      [⟨0, [4, 0, 0, 0, 0, 0]⟩, zeroReport]).2 =
    countB (0x1e + 128) (runReports initialState
      [⟨0, [4, 0, 0, 0, 0, 0]⟩, zeroReport]).2 :=
  c3_make_break_balance [⟨0, [4, 0, 0, 0, 0, 0]⟩, zeroReport]
    (by decide) (by decide) 0x1e (by decide) (by decide)

end X68kHid
